import Mathlib

/-!
# Muxer: grid layout, frame slots and the compositor tick

A shallow embedding of `src/muxer/Muxer.cpp`:

* the constructor's grid layout (`sqrt` / `ceil` / `floor` branches) and `applySize`;
* `newImage`, the slot-side of a camera client delivering a frame;
* `updateFrames`, the timer tick that paints dirty slots into the composite image.

Machine `int` arithmetic is integer arithmetic reduced to 32 bits (`wrapInt`).
`double` arithmetic is IEEE-754 binary64 with round-to-nearest, ties-to-even,
every operation rounded once (no extended precision, no fused operations); the
values that occur are finite and non-negative, so a `double` is kept as the exact
dyadic fraction it denotes.
-/

/-! ## Machine integers -/

/-- Two-complement reduction of an integer to the 32-bit `int` range. -/
def wrapInt (z : Int) : Int := (z + 2147483648) % 4294967296 - 2147483648

/-! ## binary64 values -/

/-- A finite non-negative `double`: the dyadic fraction `m / 2 ^ k`. -/
structure Dbl where
  m : Nat
  k : Nat
deriving DecidableEq

/-- Loop behind `ilog2`: halve until below two, counting the steps. -/
def ilog2.go : Nat → Nat → Nat
  | 0, _ => 0
  | fuel + 1, n => if n < 2 then 0 else ilog2.go fuel (n / 2) + 1

/-- Position of the highest set bit of `n` (and `0` for `n = 0`). -/
def ilog2 (n : Nat) : Nat := ilog2.go n n

/-- Loop behind `isqrt`: the root of `n` is twice the root of `n / 4`, plus one when
that still fits. -/
def isqrt.go : Nat → Nat → Nat
  | 0, _ => 0
  | fuel + 1, n =>
    if n = 0 then 0
    else
      let r := 2 * isqrt.go fuel (n / 4)
      if (r + 1) * (r + 1) ≤ n then r + 1 else r

/-- Integer square root, rounded down. -/
def isqrt (n : Nat) : Nat := isqrt.go n n

/-- The binary64 value nearest to the positive fraction `num / den` (ties to the even
significand); `0` when `num = 0`. Normal range only: the fractions that occur are
built from `int` values, so they lie between `2 ^ (-62)` and `2 ^ 62`. -/
def roundNE (num den : Nat) : Dbl :=
  if num = 0 ∨ den = 0 then ⟨0, 0⟩ else
  let t0 : Int := 52 + (ilog2 den : Int) - (ilog2 num : Int)
  let a0 := num * 2 ^ t0.toNat
  let b := den * 2 ^ (-t0).toNat
  -- choose the exponent so that 2 ^ 52 ≤ a / b < 2 ^ 53
  let a := if a0 < b * 2 ^ 52 then 2 * a0 else a0
  let t := if a0 < b * 2 ^ 52 then t0 + 1 else t0
  let q := a / b
  let r := a % b
  let sig := if 2 * r < b then q else if b < 2 * r then q + 1 else if q % 2 = 0 then q else q + 1
  ⟨sig * 2 ^ (-t).toNat, t.toNat⟩

namespace Dbl

/-- Conversion `(double)i` of a non-negative `int`; exact. -/
def ofInt (i : Nat) : Dbl := ⟨i, 0⟩

/-- Comparison `a == b` of two values. -/
def eqv (a b : Dbl) : Bool := a.m * 2 ^ b.k == b.m * 2 ^ a.k

/-- Quotient `a / b`, rounded. -/
def div (a b : Dbl) : Dbl := roundNE (a.m * 2 ^ b.k) (b.m * 2 ^ a.k)

/-- Difference `a - b` for `b ≤ a`, rounded. -/
def sub (a b : Dbl) : Dbl := roundNE (a.m * 2 ^ b.k - b.m * 2 ^ a.k) (2 ^ (a.k + b.k))

/-- Product `a * b`, rounded. -/
def mul (a b : Dbl) : Dbl := roundNE (a.m * b.m) (2 ^ (a.k + b.k))

/-- Conversion `(int)a`: truncation. -/
def toInt (a : Dbl) : Nat := a.m / 2 ^ a.k

/-- The function `floor`. -/
def floor (a : Dbl) : Dbl := ⟨a.m / 2 ^ a.k, 0⟩

/-- The function `ceil`. -/
def ceil (a : Dbl) : Dbl := ⟨(a.m + 2 ^ a.k - 1) / 2 ^ a.k, 0⟩

/-- The correctly rounded `sqrt((double)n)` of an `int` value `n`: with
`N = n * 4 ^ k` scaled so that its root has 53 bits, the integer nearest to the root
of `N`, over `2 ^ k`. -/
def sqrtOfInt (n : Nat) : Dbl :=
  if n = 0 then ⟨0, 0⟩ else
  let k := (105 - ilog2 n) / 2
  let N := n * 4 ^ k
  let r := isqrt N
  ⟨if r < N - r * r then r + 1 else r, k⟩

end Dbl

/-! ## Images -/

/-- An image: its size and the colour value of each pixel (meaningful inside the
rectangle `width × height`). -/
structure QImage where
  width : Nat
  height : Nat
  pixel : Nat → Nat → Nat

namespace QImage

/-- The null image `QImage()`. -/
def null : QImage := ⟨0, 0, fun _ _ => 0⟩

/-- The colour `Qt::gray` as an RGB32 value. -/
def gray : Nat := 0xffa0a0a4

/-- An image `QImage(w, h, Format_RGB32)` filled with one colour; null when a side is not
positive. -/
def filled (w h : Int) (c : Nat) : QImage :=
  if w ≤ 0 ∨ h ≤ 0 then null else ⟨w.toNat, h.toNat, fun _ _ => c⟩

/-- Painting `painter.drawImage(x, y, image)` of an opaque image onto a canvas. -/
def drawImage (canvas : QImage) (x y : Int) (image : QImage) : QImage :=
  { canvas with
    pixel := fun px py =>
      if x ≤ (px : Int) ∧ (px : Int) < x + image.width ∧
          y ≤ (py : Int) ∧ (py : Int) < y + image.height
      then image.pixel ((px : Int) - x).toNat ((py : Int) - y).toNat
      else canvas.pixel px py }

end QImage

/-- The restart of a `QTime` read at `t` when the clock shows `now` (milliseconds of the
day): the elapsed milliseconds, a day added when the difference is negative. -/
def QTime.restart (t now : Nat) : Int :=
  let n : Int := (now : Int) - (t : Int)
  if n < 0 then n + 86400 * 1000 else n

/-- One detection result of the analyzer: a face rectangle and the eye rectangles
found in it (rectangles as `x, y, w, h`). -/
structure EyeCounterResult where
  face : Int × Int × Int × Int
  allEyes : List (Int × Int × Int × Int)

/-! ## The muxer state -/

/-- Modelled from the spec: the element type of the lists `m_counts` and `m_durations` is
declared in `Muxer.h`, which is absent; the specification calls `frameCount` and
`totalIntervalMillis` monotonically increasing counters, so a counter is an unbounded
integer. -/
abbrev Counter : Type := Int

/-- The fields of `Muxer` the operations below read or write. The per-camera data
live in parallel lists, as in the source. `m_threads` holds the identities of the client
objects (each camera gets a fresh one); `m_time` the clock reading of each camera's last
restart; `m_counter` says whether an analyzer exists; `m_logFilePtr` is the text written to
the log so far, when the log is open. -/
structure Muxer where
  m_cols : Int
  m_rows : Int
  m_frameSize : Int × Int
  m_threads : List Nat
  m_images : List QImage
  m_wasChanged : List Bool
  m_counts : List Counter
  m_durations : List Counter
  m_time : List Nat
  m_muxedImage : QImage
  m_counter : Bool
  m_highlightEyes : Bool
  m_logFilePtr : Option String

namespace Muxer

/-- The state after `applySize(x, y)`, and the number of `imageReady` signals emitted. -/
def applySize (st : Muxer) (x y : Int) : Muxer × Nat :=
  let xpx := wrapInt (x * st.m_frameSize.1)
  let ypx := wrapInt (y * st.m_frameSize.2)
  ({ st with m_cols := x, m_rows := y, m_muxedImage := QImage.filled xpx ypx QImage.gray }, 1)

/-- The arguments the constructor passes to `applySize` for `numItems` cameras
(lines 163-187). -/
def chooseGrid (numItems : Int) : Int × Int :=
  let sq := Dbl.sqrtOfInt numItems.toNat
  if ¬ (Dbl.eqv (Dbl.ofInt sq.toInt) sq) then
    let x : Int := (Dbl.ceil sq).toInt
    let y : Int := (Dbl.floor sq).toInt
    if wrapInt (x * y) ≥ numItems then (x, y)
    else
      let y := wrapInt (y + 1)
      if wrapInt (x * y) ≥ numItems then (x, y) else (x, x)
  else ((sq.toInt : Int), (sq.toInt : Int))

/-- The constructor from the camera loop on (lines 108-187): `numCameras` slots are
appended, then the grid is chosen and applied. `none` is the exit taken when no camera is
listed. `startTime i` is the clock reading when camera `i` is set up. -/
def construct (frameSize : Int × Int) (numCameras : Int) (startTime : Nat → Nat)
    (counter highlight : Bool) (logFile : Option String) : Option (Muxer × Nat) :=
  let n := numCameras.toNat
  let st : Muxer :=
    { m_cols := -1, m_rows := -1, m_frameSize := frameSize,
      m_threads := List.range n,
      m_images := List.replicate n QImage.null,
      m_wasChanged := List.replicate n false,
      m_counts := List.replicate n 0,
      m_durations := List.replicate n 0,
      m_time := (List.range n).map startTime,
      m_muxedImage := QImage.null,
      m_counter := counter, m_highlightEyes := highlight, m_logFilePtr := logFile }
  let numItems : Int := st.m_images.length
  if numItems = 0 then none
  else some (st.applySize (chooseGrid numItems).1 (chooseGrid numItems).2)

/-- The cell `(row, col)` that `updateFrames` computes for slot `i ≥ 0` in a grid of
`cols ≥ 1` columns, through the fraction `frac = (double)i / (double)cols`. -/
def cellOf (i cols : Nat) : Int × Int :=
  let frac := Dbl.div (Dbl.ofInt i) (Dbl.ofInt cols)
  let row := frac.toInt
  let col := (Dbl.mul (Dbl.sub frac (Dbl.ofInt row)) (Dbl.ofInt cols)).toInt
  ((row : Int), (col : Int))

/-- The pixel origin `(x, y)` at which `updateFrames` draws slot `i`. -/
def drawOrigin (st : Muxer) (i : Nat) : Int × Int :=
  let cell := cellOf i st.m_cols.toNat
  (wrapInt (cell.2 * st.m_frameSize.1), wrapInt (cell.1 * st.m_frameSize.2))

/-- One round of the loop of `updateFrames` for index `i`: the state and the `changed`
flag after it. -/
def updateSlot (acc : Muxer × Bool) (i : Nat) : Muxer × Bool :=
  let st := acc.1
  if st.m_wasChanged.getD i false then
    let image := st.m_images.getD i QImage.null
    let o := st.drawOrigin i
    ({ st with
        m_muxedImage := st.m_muxedImage.drawImage o.1 o.2 image,
        m_wasChanged := st.m_wasChanged.set i false }, true)
  else acc

/-- The state after `updateFrames()`, and the number of `imageReady` signals emitted. -/
def updateFrames (st : Muxer) : Muxer × Nat :=
  let length := st.m_images.length
  let r := (List.range length).foldl updateSlot (st, false)
  (r.1, if r.2 then 1 else 0)

/-- The counters `facesWithEyesCount` and `eyesCount` after the loop over the detection
results, started from the values `g1` and `g2` the two locals hold on entry (the source
does not initialise them). -/
def countEyes (faces : List EyeCounterResult) (g1 g2 : Int) : Int × Int :=
  faces.foldl
    (fun c res => (if res.allEyes.isEmpty then c.1 else c.1 + 1, c.2 + res.allEyes.length))
    (g1, g2)

/-- The text `newImage` sends to the log stream for one analyzed frame: `stamp` is the
formatted current date and time. -/
def logText (stamp : String) (faces : List EyeCounterResult) (g1 g2 : Int) : String :=
  stamp ++ "," ++ toString (faces.length : Int) ++ toString (countEyes faces g1 g2).1
    ++ toString (countEyes faces g1 g2).2

/-- The state after `newImage(image)` sent by `sender` (`none`: the sender is no client)
when the clock shows `now`; `faces` is what the analyzer detects in the image. `none` is
an out-of-range list access (the sender is not in `m_threads`). The rectangles of the
highlighting are painted on the local copy of the image, which is dropped on return. -/
def newImage (st : Muxer) (sender : Option Nat) (image : QImage) (now : Nat)
    (faces : List EyeCounterResult) (stamp : String) (g1 g2 : Int) : Option Muxer :=
  match sender with
  | none => some st
  | some client =>
    let index := st.m_threads.indexOf client
    if index < st.m_threads.length ∧ index < st.m_images.length ∧
        index < st.m_wasChanged.length ∧ index < st.m_counts.length ∧
        index < st.m_durations.length ∧ index < st.m_time.length then
      let time := QTime.restart (st.m_time.getD index 0) now
      let st1 : Muxer :=
        { st with
          m_images := st.m_images.set index image,
          m_wasChanged := st.m_wasChanged.set index true,
          m_counts := st.m_counts.set index (st.m_counts.getD index 0 + 1),
          m_time := st.m_time.set index now,
          m_durations := st.m_durations.set index (st.m_durations.getD index 0 + time) }
      if st1.m_counter then
        some { st1 with
          m_logFilePtr := st1.m_logFilePtr.map (fun out => out ++ logText stamp faces g1 g2) }
      else some st1
    else none

/-- The grid `(m_cols, m_rows)` of a constructed muxer. -/
def gridOf (r : Option (Muxer × Nat)) : Option (Int × Int) :=
  r.map (fun p => (p.1.m_cols, p.1.m_rows))

/-- The per-camera lists have one entry per client, and the clients are distinct
objects. -/
def WF (st : Muxer) : Prop :=
  st.m_threads.Nodup ∧
  st.m_images.length = st.m_threads.length ∧
  st.m_wasChanged.length = st.m_threads.length ∧
  st.m_counts.length = st.m_threads.length ∧
  st.m_durations.length = st.m_threads.length ∧
  st.m_time.length = st.m_threads.length

end Muxer

/-! ## Sample states -/

/-- A frame of one colour. -/
def flatFrame (w h c : Nat) : QImage := ⟨w, h, fun _ _ => c⟩

/-- The colour red as an RGB32 value. -/
def red : Nat := 0xffff0000

/-- A muxer of nine cameras with tiles of 4 × 3 pixels on a 3 × 3 grid, all cells gray;
camera 4 has delivered a red frame that is not yet painted. -/
def grid3x3 : Muxer :=
  { m_cols := 3, m_rows := 3, m_frameSize := (4, 3),
    m_threads := List.range 9,
    m_images := (List.replicate 9 QImage.null).set 4 (flatFrame 4 3 red),
    m_wasChanged := (List.replicate 9 false).set 4 true,
    m_counts := (List.replicate 9 0).set 4 1,
    m_durations := (List.replicate 9 0).set 4 40,
    m_time := (List.replicate 9 1000).set 4 1040,
    m_muxedImage := QImage.filled 12 9 QImage.gray,
    m_counter := false, m_highlightEyes := false, m_logFilePtr := none }

/-- Five cameras with tiles of 2 × 2 pixels: construction, then a red frame from camera 4,
then one tick. Cameras 0 to 3 deliver nothing. -/
def fiveCameraRun : Option Muxer :=
  (Muxer.construct (2, 2) 5 (fun _ => 0) false false none).bind fun p =>
    (p.1.newImage (some 4) (flatFrame 2 2 red) 40 [] ("") 0 0).map fun st => st.updateFrames.1

/-- One camera with the analyzer on and an open, empty log. -/
def loggingMuxer : Muxer :=
  { m_cols := 1, m_rows := 1, m_frameSize := (4, 3),
    m_threads := [0], m_images := [QImage.null], m_wasChanged := [false],
    m_counts := [0], m_durations := [0], m_time := [1000],
    m_muxedImage := QImage.filled 4 3 QImage.gray,
    m_counter := true, m_highlightEyes := true, m_logFilePtr := some ("") }

/-- A detection result: one face with two eyes. -/
def oneFaceTwoEyes : List EyeCounterResult :=
  [⟨(0, 0, 4, 3), [(1, 1, 1, 1), (2, 1, 1, 1)]⟩]

/-! ## The layout of the specification -/

/-- The root of `n` rounded up, in exact integer arithmetic. -/
def ceilSqrt (n : Nat) : Nat := if Nat.sqrt n * Nat.sqrt n = n then Nat.sqrt n else Nat.sqrt n + 1

/-- The layout sequence as the specification words it, with exact integer square
roots. -/
def specGrid (n : Nat) : Nat × Nat :=
  if Nat.sqrt n * Nat.sqrt n = n then (Nat.sqrt n, Nat.sqrt n)
  else
    let x := ceilSqrt n
    let y := Nat.sqrt n
    if x * y ≥ n then (x, y)
    else if x * (y + 1) ≥ n then (x, y + 1)
    else (x, x)

set_option maxRecDepth 100000

/-! ## Integer helpers -/

theorem isqrt_go_eq_sqrt (fuel : Nat) : ∀ n : Nat, n ≤ fuel → isqrt.go fuel n = Nat.sqrt n := by
  induction fuel with
  | zero =>
    intro n hn
    have h0 : n = 0 := by omega
    subst h0
    simp [isqrt.go]
  | succ fuel ih =>
    intro n hn
    by_cases h0 : n = 0
    · subst h0
      simp [isqrt.go]
    · have hq : n / 4 ≤ fuel := by omega
      have hs := ih (n / 4) hq
      have h1 : Nat.sqrt (n / 4) * Nat.sqrt (n / 4) ≤ n / 4 := Nat.sqrt_le (n / 4)
      have h2 : n / 4 < (Nat.sqrt (n / 4) + 1) * (Nat.sqrt (n / 4) + 1) := Nat.lt_succ_sqrt (n / 4)
      simp only [isqrt.go, h0, if_false, hs]
      generalize Nat.sqrt (n / 4) = s at h1 h2
      split
      · rename_i h3
        rw [Nat.eq_sqrt]
        refine ⟨h3, ?_⟩
        nlinarith [Nat.div_add_mod n 4, Nat.mod_lt n (show 4 > 0 by norm_num)]
      · rename_i h3
        rw [Nat.eq_sqrt]
        refine ⟨?_, by omega⟩
        have h4 : 4 * (n / 4) ≤ n := Nat.mul_div_le n 4
        nlinarith [h1, h4]

theorem isqrt_eq_sqrt (n : Nat) : isqrt n = Nat.sqrt n :=
  isqrt_go_eq_sqrt n n (le_refl n)

theorem ilog2_go_le (fuel : Nat) : ∀ n b : Nat, n < 2 ^ (b + 1) → ilog2.go fuel n ≤ b := by
  induction fuel with
  | zero => intro n b _; simp [ilog2.go]
  | succ fuel ih =>
    intro n b hn
    simp only [ilog2.go]
    split
    · omega
    · rename_i h2
      cases b with
      | zero => simp at hn; omega
      | succ b =>
        have : n / 2 < 2 ^ (b + 1) := by
          rw [Nat.div_lt_iff_lt_mul (by norm_num)]
          rw [pow_succ] at hn
          exact hn
        have := ih (n / 2) b this
        omega

theorem ilog2_le (n b : Nat) (hn : n < 2 ^ (b + 1)) : ilog2 n ≤ b :=
  ilog2_go_le n n b hn

/-- Rounding the root of the scaled radicand `n * P ^ 2` to the nearest integer stays in
the band of `Nat.sqrt n`, and hits its lower end exactly for perfect squares. -/
theorem scaled_root_bounds (n P : Nat) (hP : Nat.sqrt n + 1 < P) :
    Nat.sqrt n * P ≤
        (if Nat.sqrt (n * (P * P)) < n * (P * P) - Nat.sqrt (n * (P * P)) * Nat.sqrt (n * (P * P))
          then Nat.sqrt (n * (P * P)) + 1 else Nat.sqrt (n * (P * P))) ∧
      (if Nat.sqrt (n * (P * P)) < n * (P * P) - Nat.sqrt (n * (P * P)) * Nat.sqrt (n * (P * P))
          then Nat.sqrt (n * (P * P)) + 1 else Nat.sqrt (n * (P * P))) < (Nat.sqrt n + 1) * P ∧
      ((if Nat.sqrt (n * (P * P)) < n * (P * P) - Nat.sqrt (n * (P * P)) * Nat.sqrt (n * (P * P))
          then Nat.sqrt (n * (P * P)) + 1 else Nat.sqrt (n * (P * P))) = Nat.sqrt n * P ↔
        Nat.sqrt n * Nat.sqrt n = n) := by
  have hs1 : Nat.sqrt n * Nat.sqrt n ≤ n := Nat.sqrt_le n
  have hs2 : n < (Nat.sqrt n + 1) * (Nat.sqrt n + 1) := Nat.lt_succ_sqrt n
  have hr1 := Nat.sqrt_le (n * (P * P))
  have hr2 := Nat.lt_succ_sqrt (n * (P * P))
  have hPpos : 0 < P := by omega
  have hPP : 0 < P * P := Nat.mul_pos hPpos hPpos
  have hi : Nat.sqrt n * P ≤ Nat.sqrt (n * (P * P)) := by
    rw [Nat.le_sqrt]
    calc Nat.sqrt n * P * (Nat.sqrt n * P) = Nat.sqrt n * Nat.sqrt n * (P * P) := by ring
      _ ≤ n * (P * P) := Nat.mul_le_mul_right _ hs1
  have hii : Nat.sqrt (n * (P * P)) < (Nat.sqrt n + 1) * P := by
    rw [Nat.sqrt_lt]
    calc n * (P * P) < (Nat.sqrt n + 1) * (Nat.sqrt n + 1) * (P * P) :=
          Nat.mul_lt_mul_of_pos_right hs2 hPP
      _ = (Nat.sqrt n + 1) * P * ((Nat.sqrt n + 1) * P) := by ring
  have hsq : Nat.sqrt n * Nat.sqrt n = n → Nat.sqrt (n * (P * P)) = Nat.sqrt n * P := by
    intro h
    have : n * (P * P) = Nat.sqrt n * P * (Nat.sqrt n * P) := by
      conv_lhs => rw [← h]
      ring
    rw [this, Nat.sqrt_eq]
  generalize Nat.sqrt n = s at *
  generalize hN : n * (P * P) = N at *
  generalize Nat.sqrt N = r at *
  have hup : (n + 1) * (P * P) ≤ (s + 1) * (s + 1) * (P * P) :=
    Nat.mul_le_mul_right _ hs2
  have hsP : s * P < P * P := Nat.mul_lt_mul_of_pos_right (by omega) hPpos
  have hsP1 : (s + 1) * P < P * P := Nat.mul_lt_mul_of_pos_right hP hPpos
  split
  · rename_i hc
    have hc2 : r * r + r < N := by omega
    refine ⟨by omega, ?_, ?_⟩
    · by_contra hge
      have hT : r + 1 = (s + 1) * P := by omega
      have h1 : (r + 1) * (r + 1) = (s + 1) * P * ((s + 1) * P) := by rw [hT]
      nlinarith
    · constructor
      · intro h
        omega
      · intro h
        have := hsq h
        subst this
        have : N = s * P * (s * P) := by
          rw [← hN, ← h]
          ring
        omega
  · rename_i hc
    have hc2 : N ≤ r * r + r := by omega
    refine ⟨hi, hii, ?_⟩
    constructor
    · intro h
      by_contra hne
      have h3 : s * s + 1 ≤ n := by omega
      have h4 : (s * s + 1) * (P * P) ≤ n * (P * P) := Nat.mul_le_mul_right _ h3
      subst h
      nlinarith
    · exact hsq

/-- The rounded root of an `int` count: a fraction `m / 2 ^ k` inside the band of
`Nat.sqrt n`, an integer exactly for perfect squares. -/
theorem sqrtOfInt_spec (n : Nat) (h1 : 1 ≤ n) (h2 : n < 2 ^ 31) :
    ∃ m k, Dbl.sqrtOfInt n = ⟨m, k⟩ ∧ Nat.sqrt n * 2 ^ k ≤ m ∧ m < (Nat.sqrt n + 1) * 2 ^ k ∧
      (m = Nat.sqrt n * 2 ^ k ↔ Nat.sqrt n * Nat.sqrt n = n) := by
  have hlog : ilog2 n ≤ 30 := ilog2_le n 30 h2
  have hk : 37 ≤ (105 - ilog2 n) / 2 := by omega
  have hs : Nat.sqrt n < 46341 := by
    rw [Nat.sqrt_lt]
    norm_num at h2 ⊢
    omega
  have hP : Nat.sqrt n + 1 < 2 ^ ((105 - ilog2 n) / 2) := by
    calc Nat.sqrt n + 1 < 2 ^ 37 := by norm_num; omega
      _ ≤ 2 ^ ((105 - ilog2 n) / 2) := Nat.pow_le_pow_right (by norm_num) hk
  have h4 : (4 : Nat) ^ ((105 - ilog2 n) / 2)
      = 2 ^ ((105 - ilog2 n) / 2) * 2 ^ ((105 - ilog2 n) / 2) := by
    rw [← mul_pow]
    norm_num
  have hb := scaled_root_bounds n (2 ^ ((105 - ilog2 n) / 2)) hP
  have hn0 : n ≠ 0 := by omega
  refine ⟨_, (105 - ilog2 n) / 2, ?_, hb⟩
  simp only [Dbl.sqrtOfInt, hn0, if_false, isqrt_eq_sqrt, h4]

theorem wrapInt_of_lt (z : Int) (h0 : 0 ≤ z) (h1 : z < 2147483648) : wrapInt z = z := by
  unfold wrapInt
  omega

theorem wrapInt_neg_of_ge (z : Int) (h0 : 2147483648 ≤ z) (h1 : z < 4294967296) :
    wrapInt z < 0 := by
  unfold wrapInt
  omega

/-- The grid the constructor chooses, in closed form over the exact integer root. -/
theorem chooseGrid_eq (n : Nat) (h1 : 1 ≤ n) (h2 : n < 2 ^ 31) :
    Muxer.chooseGrid (n : Int) =
      if Nat.sqrt n * Nat.sqrt n = n then ((Nat.sqrt n : Int), (Nat.sqrt n : Int))
      else if n ≤ (Nat.sqrt n + 1) * Nat.sqrt n then
        (((Nat.sqrt n + 1 : Nat) : Int), (Nat.sqrt n : Int))
      else (((Nat.sqrt n + 1 : Nat) : Int), ((Nat.sqrt n + 1 : Nat) : Int)) := by
  obtain ⟨m, k, hsq, hlo, hhi, hiff⟩ := sqrtOfInt_spec n h1 h2
  have hs : Nat.sqrt n < 46341 := by
    rw [Nat.sqrt_lt]
    norm_num at h2 ⊢
    omega
  have hPpos : 0 < 2 ^ k := Nat.two_pow_pos k
  have hdiv : m / 2 ^ k = Nat.sqrt n := Nat.div_eq_of_lt_le hlo hhi
  have hceil : ¬ (m = Nat.sqrt n * 2 ^ k) → (m + 2 ^ k - 1) / 2 ^ k = Nat.sqrt n + 1 := by
    intro hne
    apply Nat.div_eq_of_lt_le
    · have : (Nat.sqrt n + 1) * 2 ^ k = Nat.sqrt n * 2 ^ k + 2 ^ k := by ring
      omega
    · have : (Nat.sqrt n + 1 + 1) * 2 ^ k = (Nat.sqrt n + 1) * 2 ^ k + 2 ^ k := by ring
      omega
  have hxy : (Nat.sqrt n + 1) * Nat.sqrt n ≤ 46341 * 46340 :=
    Nat.mul_le_mul (by omega) (by omega)
  have hxx : (Nat.sqrt n + 1) * (Nat.sqrt n + 1) ≤ 46341 * 46341 :=
    Nat.mul_le_mul (by omega) (by omega)
  have hlt : n < (Nat.sqrt n + 1) * (Nat.sqrt n + 1) := Nat.lt_succ_sqrt n
  simp only [Muxer.chooseGrid, Int.toNat_ofNat, hsq, Dbl.toInt, Dbl.ofInt, Dbl.eqv, Dbl.ceil,
    Dbl.floor, hdiv, pow_zero, mul_one, Nat.div_one, beq_iff_eq, ite_not]
  by_cases hsquare : Nat.sqrt n * Nat.sqrt n = n
  · have hm : Nat.sqrt n * 2 ^ k = m := (hiff.2 hsquare).symm
    simp [hsquare, hm]
  · have hm : ¬ (Nat.sqrt n * 2 ^ k = m) := fun h => hsquare (hiff.1 h.symm)
    have hc := hceil (fun h => hm h.symm)
    simp only [hm, hsquare, if_false, hc]
    generalize Nat.sqrt n = s at *
    have e1 : ((s + 1 : Nat) : Int) * (s : Int) = (((s + 1) * s : Nat) : Int) := by push_cast; ring
    have e2 : wrapInt ((s : Int) + 1) = ((s + 1 : Nat) : Int) := by
      rw [wrapInt_of_lt _ (by omega) (by omega)]
      push_cast
      ring
    have e3 : ((s + 1 : Nat) : Int) * ((s + 1 : Nat) : Int) = (((s + 1) * (s + 1) : Nat) : Int) := by
      push_cast; ring
    rw [e1, e2, e3, wrapInt_of_lt _ (by omega) (by omega)]
    by_cases hfit : n ≤ (s + 1) * s
    · have : ((n : Int)) ≤ (((s + 1) * s : Nat) : Int) := by exact_mod_cast hfit
      simp only [ge_iff_le, this, hfit, if_true]
    · have : ¬ ((n : Int)) ≤ (((s + 1) * s : Nat) : Int) := by
        intro h
        exact hfit (by exact_mod_cast h)
      simp only [ge_iff_le, this, hfit, if_false]
      split <;> rfl

/-- A constructor run with at least one camera returns, and its grid is the chosen one. -/
theorem gridOf_construct (n : Nat) (h1 : 1 ≤ n) (frameSize : Int × Int) (startTime : Nat → Nat)
    (counter highlight : Bool) (logFile : Option String) :
    Muxer.gridOf (Muxer.construct frameSize (n : Int) startTime counter highlight logFile)
      = some (Muxer.chooseGrid (n : Int)) := by
  have hn : ¬ ((n : Int) = 0) := by omega
  simp [Muxer.construct, Muxer.gridOf, Muxer.applySize, hn]

/-! ## Grid layout (C1, C6, C7) -/

/-- C1: for every camera count `1 ≤ n` in the `int` range the constructor returns and the
grid `(cols, rows)` it applies satisfies `n ≤ cols * rows`. -/
theorem grid_covers_all_cameras (n : Nat) (h1 : 1 ≤ n) (h2 : n < 2 ^ 31) (frameSize : Int × Int)
    (startTime : Nat → Nat) (counter highlight : Bool) (logFile : Option String) :
    ∃ cols rows : Int,
      Muxer.gridOf (Muxer.construct frameSize (n : Int) startTime counter highlight logFile)
        = some (cols, rows) ∧ (n : Int) ≤ cols * rows := by
  rw [gridOf_construct n h1, chooseGrid_eq n h1 h2]
  have hlt : n < (Nat.sqrt n + 1) * (Nat.sqrt n + 1) := Nat.lt_succ_sqrt n
  by_cases hsq : Nat.sqrt n * Nat.sqrt n = n
  · refine ⟨_, _, by rw [if_pos hsq], ?_⟩
    exact_mod_cast hsq.ge
  · by_cases hfit : n ≤ (Nat.sqrt n + 1) * Nat.sqrt n
    · refine ⟨_, _, by rw [if_neg hsq, if_pos hfit], ?_⟩
      exact_mod_cast hfit
    · refine ⟨_, _, by rw [if_neg hsq, if_neg hfit], ?_⟩
      exact_mod_cast hlt.le

theorem grid_covers_all_cameras_witness :
    ∃ cols rows : Int,
      Muxer.gridOf (Muxer.construct (640, 480) ((5 : Nat) : Int) (fun _ => 0) false false none)
        = some (cols, rows) ∧ ((5 : Nat) : Int) ≤ cols * rows :=
  grid_covers_all_cameras 5 (by decide) (by decide) (640, 480) (fun _ => 0) false false none

/-- The layout of the specification in closed form: past the perfect squares the third
and fourth alternatives coincide. -/
theorem specGrid_eq (n : Nat) :
    specGrid n =
      if Nat.sqrt n * Nat.sqrt n = n then (Nat.sqrt n, Nat.sqrt n)
      else if n ≤ (Nat.sqrt n + 1) * Nat.sqrt n then (Nat.sqrt n + 1, Nat.sqrt n)
      else (Nat.sqrt n + 1, Nat.sqrt n + 1) := by
  have hlt : n < (Nat.sqrt n + 1) * (Nat.sqrt n + 1) := Nat.lt_succ_sqrt n
  by_cases hsq : Nat.sqrt n * Nat.sqrt n = n
  · simp only [specGrid, if_pos hsq]
  · by_cases hfit : n ≤ (Nat.sqrt n + 1) * Nat.sqrt n
    · simp only [specGrid, ceilSqrt, if_neg hsq, ge_iff_le, if_pos hfit]
    · simp only [specGrid, ceilSqrt, if_neg hsq, ge_iff_le, if_neg hfit, if_pos hlt.le]

/-- C6: for every camera count `1 ≤ n` in the `int` range the grid the constructor applies is
the one the layout sequence of the specification yields with exact integer square roots;
and the counts 1, 4, 5, 7, 10 give (1,1), (2,2), (3,2), (3,3), (4,3). -/
theorem grid_refines_spec (n : Nat) (h1 : 1 ≤ n) (h2 : n < 2 ^ 31) (frameSize : Int × Int)
    (startTime : Nat → Nat) (counter highlight : Bool) (logFile : Option String) :
    Muxer.gridOf (Muxer.construct frameSize (n : Int) startTime counter highlight logFile)
        = some (((specGrid n).1 : Int), ((specGrid n).2 : Int)) ∧
      Muxer.gridOf (Muxer.construct frameSize 1 startTime counter highlight logFile)
        = some (1, 1) ∧
      Muxer.gridOf (Muxer.construct frameSize 4 startTime counter highlight logFile)
        = some (2, 2) ∧
      Muxer.gridOf (Muxer.construct frameSize 5 startTime counter highlight logFile)
        = some (3, 2) ∧
      Muxer.gridOf (Muxer.construct frameSize 7 startTime counter highlight logFile)
        = some (3, 3) ∧
      Muxer.gridOf (Muxer.construct frameSize 10 startTime counter highlight logFile)
        = some (4, 3) := by
  refine ⟨?_, ?_, ?_, ?_, ?_, ?_⟩
  · rw [gridOf_construct n h1, chooseGrid_eq n h1 h2, specGrid_eq]
    split
    · rfl
    · split <;> rfl
  · rw [show (1 : Int) = ((1 : Nat) : Int) from rfl, gridOf_construct 1 (by decide)]
    decide
  · rw [show (4 : Int) = ((4 : Nat) : Int) from rfl, gridOf_construct 4 (by decide)]
    decide
  · rw [show (5 : Int) = ((5 : Nat) : Int) from rfl, gridOf_construct 5 (by decide)]
    decide
  · rw [show (7 : Int) = ((7 : Nat) : Int) from rfl, gridOf_construct 7 (by decide)]
    decide
  · rw [show (10 : Int) = ((10 : Nat) : Int) from rfl, gridOf_construct 10 (by decide)]
    decide

theorem grid_refines_spec_witness :
    Muxer.gridOf (Muxer.construct (640, 480) ((8 : Nat) : Int) (fun _ => 0) false false none)
        = some (((specGrid 8).1 : Int), ((specGrid 8).2 : Int)) ∧
      Muxer.gridOf (Muxer.construct (640, 480) 1 (fun _ => 0) false false none) = some (1, 1) ∧
      Muxer.gridOf (Muxer.construct (640, 480) 4 (fun _ => 0) false false none) = some (2, 2) ∧
      Muxer.gridOf (Muxer.construct (640, 480) 5 (fun _ => 0) false false none) = some (3, 2) ∧
      Muxer.gridOf (Muxer.construct (640, 480) 7 (fun _ => 0) false false none) = some (3, 3) ∧
      Muxer.gridOf (Muxer.construct (640, 480) 10 (fun _ => 0) false false none) = some (4, 3) :=
  grid_refines_spec 8 (by decide) (by decide) (640, 480) (fun _ => 0) false false none

/-- C7: for every camera count `1 ≤ n` in the `int` range the grid the constructor applies is
near-square, `rows ≤ cols ≤ rows + 1`, and no near-square grid `(c, r)` with room for `n`
cameras has a smaller area; the grids the sequence tries, `(x, y)`, `(x, y + 1)` and
`(x, x)` with `x` and `y` the root of a non-square `n` rounded up and down, are
near-square. -/
theorem grid_minimal_near_square (n : Nat) (h1 : 1 ≤ n) (h2 : n < 2 ^ 31)
    (frameSize : Int × Int) (startTime : Nat → Nat) (counter highlight : Bool)
    (logFile : Option String) :
    ∃ cols rows : Int,
      Muxer.gridOf (Muxer.construct frameSize (n : Int) startTime counter highlight logFile)
        = some (cols, rows) ∧
      rows ≤ cols ∧ cols ≤ rows + 1 ∧
      (∀ c r : Nat, r ≤ c → c ≤ r + 1 → n ≤ c * r → cols * rows ≤ ((c * r : Nat) : Int)) ∧
      (Nat.sqrt n * Nat.sqrt n ≠ n →
        (Nat.sqrt n ≤ ceilSqrt n ∧ ceilSqrt n ≤ Nat.sqrt n + 1) ∧
        (Nat.sqrt n + 1 ≤ ceilSqrt n ∧ ceilSqrt n ≤ Nat.sqrt n + 1 + 1)) := by
  rw [gridOf_construct n h1, chooseGrid_eq n h1 h2]
  have hle : Nat.sqrt n * Nat.sqrt n ≤ n := Nat.sqrt_le n
  have hcand : Nat.sqrt n * Nat.sqrt n ≠ n →
      (Nat.sqrt n ≤ ceilSqrt n ∧ ceilSqrt n ≤ Nat.sqrt n + 1) ∧
      (Nat.sqrt n + 1 ≤ ceilSqrt n ∧ ceilSqrt n ≤ Nat.sqrt n + 1 + 1) := by
    intro hne
    simp only [ceilSqrt, if_neg hne]
    omega
  generalize Nat.sqrt n = s at *
  -- a near-square grid with room for more than `s * s` cameras has more than `s` columns
  have hcol : ∀ c r : Nat, r ≤ c → s * s < c * r → s + 1 ≤ c := by
    intro c r hrc hlt
    by_contra hc
    have : c * r ≤ s * s := Nat.mul_le_mul (by omega) (by omega)
    omega
  by_cases hsq : s * s = n
  · refine ⟨_, _, by rw [if_pos hsq], le_refl _, by omega, ?_, hcand⟩
    intro c r _ _ hroom
    have : s * s ≤ c * r := by omega
    exact_mod_cast this
  · have hlt : s * s < n := by omega
    by_cases hfit : n ≤ (s + 1) * s
    · refine ⟨_, _, by rw [if_neg hsq, if_pos hfit], by push_cast; omega, by push_cast; omega,
        ?_, hcand⟩
      intro c r hrc hcr hroom
      have hc := hcol c r hrc (by omega)
      have : (s + 1) * s ≤ c * r := Nat.mul_le_mul hc (by omega)
      exact_mod_cast this
    · refine ⟨_, _, by rw [if_neg hsq, if_neg hfit], le_refl _, by omega, ?_, hcand⟩
      intro c r hrc hcr hroom
      have hc := hcol c r hrc (by omega)
      have hr : s + 1 ≤ r := by
        by_contra hr
        have : c * r ≤ (s + 1) * s := Nat.mul_le_mul (by omega) (by omega)
        omega
      have : (s + 1) * (s + 1) ≤ c * r := Nat.mul_le_mul hc hr
      exact_mod_cast this

theorem grid_minimal_near_square_witness :
    ∃ cols rows : Int,
      Muxer.gridOf (Muxer.construct (640, 480) ((7 : Nat) : Int) (fun _ => 0) false false none)
        = some (cols, rows) ∧
      rows ≤ cols ∧ cols ≤ rows + 1 ∧
      (∀ c r : Nat, r ≤ c → c ≤ r + 1 → 7 ≤ c * r → cols * rows ≤ ((c * r : Nat) : Int)) ∧
      (Nat.sqrt 7 * Nat.sqrt 7 ≠ 7 →
        (Nat.sqrt 7 ≤ ceilSqrt 7 ∧ ceilSqrt 7 ≤ Nat.sqrt 7 + 1) ∧
        (Nat.sqrt 7 + 1 ≤ ceilSqrt 7 ∧ ceilSqrt 7 ≤ Nat.sqrt 7 + 1 + 1)) :=
  grid_minimal_near_square 7 (by decide) (by decide) (640, 480) (fun _ => 0) false false none

/-! ## The compositor tick (C4, C5) -/

/-- A loop round on a clear flag does nothing. -/
theorem updateSlot_clean (acc : Muxer × Bool) (i : Nat)
    (h : acc.1.m_wasChanged.getD i false = false) : Muxer.updateSlot acc i = acc := by
  simp only [Muxer.updateSlot, h, Bool.false_eq_true, if_false]

/-- A loop round on a set flag draws the slot and clears the flag. -/
theorem updateSlot_dirty (acc : Muxer × Bool) (i : Nat)
    (h : acc.1.m_wasChanged.getD i false = true) :
    Muxer.updateSlot acc i =
      ({ acc.1 with
          m_muxedImage := acc.1.m_muxedImage.drawImage (acc.1.drawOrigin i).1
            (acc.1.drawOrigin i).2 (acc.1.m_images.getD i QImage.null),
          m_wasChanged := acc.1.m_wasChanged.set i false }, true) := by
  simp only [Muxer.updateSlot, h, if_true]

theorem getD_false_cases (l : List Bool) (i : Nat) :
    l.getD i false = true ∨ l.getD i false = false := by
  cases l.getD i false <;> simp

/-- One loop round leaves every field but the canvas and the flags alone. -/
theorem updateSlot_frame (acc : Muxer × Bool) (i : Nat) :
    (Muxer.updateSlot acc i).1.m_images = acc.1.m_images ∧
      (Muxer.updateSlot acc i).1.m_counts = acc.1.m_counts ∧
      (Muxer.updateSlot acc i).1.m_durations = acc.1.m_durations ∧
      (Muxer.updateSlot acc i).1.m_wasChanged.length = acc.1.m_wasChanged.length := by
  rcases getD_false_cases acc.1.m_wasChanged i with h | h
  · rw [updateSlot_dirty acc i h]
    simp
  · rw [updateSlot_clean acc i h]
    simp

/-- One loop round clears flag `i` and no other. -/
theorem updateSlot_flags (acc : Muxer × Bool) (i j : Nat) :
    (Muxer.updateSlot acc i).1.m_wasChanged[j]? =
      if j = i then acc.1.m_wasChanged[j]?.map (fun _ => false) else acc.1.m_wasChanged[j]? := by
  rcases getD_false_cases acc.1.m_wasChanged i with hflag | hflag
  · rw [updateSlot_dirty acc i hflag]
    by_cases hji : j = i
    · subst hji
      rw [if_pos rfl]
      simp only [List.getD_eq_getElem?_getD] at hflag
      cases hget : acc.1.m_wasChanged[j]? with
      | none => simp [hget] at hflag
      | some b =>
        have hlt : j < acc.1.m_wasChanged.length := by
          by_contra hge
          rw [List.getElem?_eq_none (by omega)] at hget
          cases hget
        simp [List.getElem?_set_self hlt]
    · rw [if_neg hji]
      simp [List.getElem?_set_ne (Ne.symm hji)]
  · rw [updateSlot_clean acc i hflag]
    by_cases hji : j = i
    · subst hji
      rw [if_pos rfl]
      simp only [List.getD_eq_getElem?_getD] at hflag
      cases hget : acc.1.m_wasChanged[j]? with
      | none => simp
      | some b =>
        simp [hget] at hflag
        simp [hflag]
    · rw [if_neg hji]

/-- One loop round raises `changed` exactly when flag `i` is set. -/
theorem updateSlot_changed (acc : Muxer × Bool) (i : Nat) :
    (Muxer.updateSlot acc i).2 = (acc.2 || acc.1.m_wasChanged.getD i false) := by
  rcases getD_false_cases acc.1.m_wasChanged i with h | h
  · rw [updateSlot_dirty acc i h, h]
    simp
  · rw [updateSlot_clean acc i h, h]
    simp

theorem foldl_updateSlot_frame (l : List Nat) : ∀ acc : Muxer × Bool,
    (l.foldl Muxer.updateSlot acc).1.m_images = acc.1.m_images ∧
      (l.foldl Muxer.updateSlot acc).1.m_counts = acc.1.m_counts ∧
      (l.foldl Muxer.updateSlot acc).1.m_durations = acc.1.m_durations ∧
      (l.foldl Muxer.updateSlot acc).1.m_wasChanged.length = acc.1.m_wasChanged.length := by
  induction l with
  | nil => intro acc; simp
  | cons i l ih =>
    intro acc
    obtain ⟨h1, h2, h3, h4⟩ := updateSlot_frame acc i
    obtain ⟨g1, g2, g3, g4⟩ := ih (Muxer.updateSlot acc i)
    simp only [List.foldl_cons]
    exact ⟨g1.trans h1, g2.trans h2, g3.trans h3, g4.trans h4⟩

theorem foldl_updateSlot_flags (l : List Nat) : ∀ (acc : Muxer × Bool) (j : Nat),
    (l.foldl Muxer.updateSlot acc).1.m_wasChanged[j]? =
      if j ∈ l then acc.1.m_wasChanged[j]?.map (fun _ => false) else acc.1.m_wasChanged[j]? := by
  induction l with
  | nil => intro acc j; simp
  | cons i l ih =>
    intro acc j
    simp only [List.foldl_cons, ih, updateSlot_flags, List.mem_cons]
    by_cases hji : j = i <;> by_cases hjl : j ∈ l <;> simp [hji, hjl]

theorem foldl_updateSlot_changed (l : List Nat) : ∀ acc : Muxer × Bool,
    ((l.foldl Muxer.updateSlot acc).2 = true ↔
      acc.2 = true ∨ ∃ i ∈ l, acc.1.m_wasChanged.getD i false = true) := by
  induction l with
  | nil => intro acc; simp
  | cons i l ih =>
    intro acc
    simp only [List.foldl_cons]
    rw [ih]
    rcases getD_false_cases acc.1.m_wasChanged i with hflag | hclean
    · constructor
      · intro _
        exact Or.inr ⟨i, List.mem_cons_self i l, hflag⟩
      · intro _
        left
        rw [updateSlot_changed, hflag]
        simp
    · rw [updateSlot_clean acc i hclean]
      constructor
      · rintro (h | ⟨k, hk, hkf⟩)
        · exact Or.inl h
        · exact Or.inr ⟨k, List.mem_cons_of_mem i hk, hkf⟩
      · rintro (h | ⟨k, hk, hkf⟩)
        · exact Or.inl h
        · rcases List.mem_cons.1 hk with rfl | hk2
          · rw [hclean] at hkf
            cases hkf
          · exact Or.inr ⟨k, hk2, hkf⟩

theorem foldl_updateSlot_clean (l : List Nat) : ∀ acc : Muxer × Bool,
    (∀ i ∈ l, acc.1.m_wasChanged.getD i false = false) → l.foldl Muxer.updateSlot acc = acc := by
  induction l with
  | nil => intro acc _; rfl
  | cons i l ih =>
    intro acc h
    simp only [List.foldl_cons]
    rw [updateSlot_clean acc i (h i (List.mem_cons_self i l))]
    exact ih acc (fun k hk => h k (List.mem_cons_of_mem i hk))

/-- C4: one call of `updateFrames` on a state whose flag list matches the image list emits
`imageReady` once when some flag is set and not at all when none is; in the second case the
canvas, the stored images and the flags are as before. -/
theorem updateFrames_emission (st : Muxer) (hlen : st.m_wasChanged.length = st.m_images.length) :
    (true ∈ st.m_wasChanged → st.updateFrames.2 = 1) ∧
      (true ∉ st.m_wasChanged →
        st.updateFrames.2 = 0 ∧ st.updateFrames.1.m_muxedImage = st.m_muxedImage ∧
          st.updateFrames.1.m_images = st.m_images ∧
          st.updateFrames.1.m_wasChanged = st.m_wasChanged) := by
  constructor
  · intro hmem
    obtain ⟨i, hi, hget⟩ := List.getElem_of_mem hmem
    have hchanged : ((List.range st.m_images.length).foldl Muxer.updateSlot (st, false)).2 = true := by
      rw [foldl_updateSlot_changed]
      refine Or.inr ⟨i, List.mem_range.2 (by omega), ?_⟩
      simp [List.getElem?_eq_getElem hi, hget]
    simp only [Muxer.updateFrames, hchanged, if_true]
  · intro hnot
    have hclean : (List.range st.m_images.length).foldl Muxer.updateSlot (st, false) = (st, false) := by
      apply foldl_updateSlot_clean
      intro i _
      rcases getD_false_cases st.m_wasChanged i with h | h
      · exfalso
        apply hnot
        simp only [List.getD_eq_getElem?_getD] at h
        cases hget : st.m_wasChanged[i]? with
        | none => simp [hget] at h
        | some b =>
          simp [hget] at h
          subst h
          exact List.getElem?_mem hget
      · exact h
    simp only [Muxer.updateFrames, hclean]
    simp

theorem updateFrames_emission_witness :
    (true ∈ grid3x3.m_wasChanged → grid3x3.updateFrames.2 = 1) ∧
      (true ∉ grid3x3.m_wasChanged →
        grid3x3.updateFrames.2 = 0 ∧
          grid3x3.updateFrames.1.m_muxedImage = grid3x3.m_muxedImage ∧
          grid3x3.updateFrames.1.m_images = grid3x3.m_images ∧
          grid3x3.updateFrames.1.m_wasChanged = grid3x3.m_wasChanged) :=
  updateFrames_emission grid3x3 (by decide)

/-- C5: after one call of `updateFrames` on a state whose flag list matches the image list
every flag is false, a flag differs from its old value exactly when that was true, and the
stored images, frame counts and accumulated durations are as before. -/
theorem updateFrames_clears_flags (st : Muxer)
    (hlen : st.m_wasChanged.length = st.m_images.length) :
    st.updateFrames.1.m_wasChanged = List.replicate st.m_wasChanged.length false ∧
      (∀ i : Nat, st.updateFrames.1.m_wasChanged[i]? ≠ st.m_wasChanged[i]? ↔
        st.m_wasChanged[i]? = some true) ∧
      st.updateFrames.1.m_images = st.m_images ∧
      st.updateFrames.1.m_counts = st.m_counts ∧
      st.updateFrames.1.m_durations = st.m_durations := by
  obtain ⟨h1, h2, h3, _⟩ := foldl_updateSlot_frame (List.range st.m_images.length) (st, false)
  have hflags : st.updateFrames.1.m_wasChanged = List.replicate st.m_wasChanged.length false := by
    apply List.ext_getElem?
    intro j
    simp only [Muxer.updateFrames, foldl_updateSlot_flags, List.mem_range, List.getElem?_replicate,
      ← hlen]
    by_cases hj : j < st.m_wasChanged.length
    · simp [hj, List.getElem?_eq_getElem hj]
    · simp [hj, List.getElem?_eq_none (Nat.le_of_not_lt hj)]
  refine ⟨hflags, ?_, h1, h2, h3⟩
  intro i
  rw [hflags, List.getElem?_replicate]
  by_cases hi : i < st.m_wasChanged.length
  · rw [if_pos hi, List.getElem?_eq_getElem hi]
    cases st.m_wasChanged[i] <;> simp
  · rw [if_neg hi, List.getElem?_eq_none (Nat.le_of_not_lt hi)]
    simp

theorem updateFrames_clears_flags_witness :
    grid3x3.updateFrames.1.m_wasChanged
        = List.replicate grid3x3.m_wasChanged.length false ∧
      (∀ i : Nat, grid3x3.updateFrames.1.m_wasChanged[i]? ≠ grid3x3.m_wasChanged[i]? ↔
        grid3x3.m_wasChanged[i]? = some true) ∧
      grid3x3.updateFrames.1.m_images = grid3x3.m_images ∧
      grid3x3.updateFrames.1.m_counts = grid3x3.m_counts ∧
      grid3x3.updateFrames.1.m_durations = grid3x3.m_durations :=
  updateFrames_clears_flags grid3x3 (by decide)

/-! ## Frame delivery (C8) -/

/-- The restart value is the difference of the two clock readings, taken over midnight
when the clock has wrapped; it is never negative. -/
theorem QTime_restart_nonneg (t now : Nat) (ht : t ≤ 86400000) : 0 ≤ QTime.restart t now := by
  unfold QTime.restart
  simp only
  split <;> omega

/-- The state `newImage` returns for the client of slot `k`, spelled out. -/
theorem newImage_eq (st : Muxer) (hwf : st.WF) (k client : Nat)
    (hk : st.m_threads[k]? = some client) (image : QImage) (now : Nat)
    (faces : List EyeCounterResult) (stamp : String) (g1 g2 : Int) :
    st.newImage (some client) image now faces stamp g1 g2 =
      some { st with
        m_images := st.m_images.set k image,
        m_wasChanged := st.m_wasChanged.set k true,
        m_counts := st.m_counts.set k (st.m_counts.getD k 0 + 1),
        m_time := st.m_time.set k now,
        m_durations :=
          st.m_durations.set k (st.m_durations.getD k 0 + QTime.restart (st.m_time.getD k 0) now),
        m_logFilePtr :=
          if st.m_counter then
            st.m_logFilePtr.map (fun out => out ++ Muxer.logText stamp faces g1 g2)
          else st.m_logFilePtr } := by
  obtain ⟨hnd, hi, hw, hc, hd, ht⟩ := hwf
  have hlt : k < st.m_threads.length := by
    by_contra hge
    rw [List.getElem?_eq_none (by omega)] at hk
    cases hk
  have hcl : st.m_threads[k] = client := by
    rw [List.getElem?_eq_getElem hlt] at hk
    exact Option.some.inj hk
  have hidx : st.m_threads.indexOf client = k := by
    rw [← hcl]
    exact List.indexOf_getElem hnd k hlt
  have hcond : k < st.m_threads.length ∧ k < st.m_images.length ∧ k < st.m_wasChanged.length ∧
      k < st.m_counts.length ∧ k < st.m_durations.length ∧ k < st.m_time.length := by
    refine ⟨hlt, ?_, ?_, ?_, ?_, ?_⟩ <;> omega
  simp only [Muxer.newImage, hidx, hcond, and_self, if_true]
  cases st.m_counter <;> simp

/-- C8: in a well-formed state, `newImage` sent by the client of slot `k` returns; it stores
the frame in slot `k` and sets its flag, adds one to its frame count and the restart value of
its timer (the milliseconds since its last restart, never negative) to its accumulated
duration, restarts the timer, and leaves the image, flag, count and duration of every other
slot and the canvas as they were. -/
theorem newImage_updates_own_slot (st : Muxer) (hwf : st.WF)
    (hclock : ∀ t ∈ st.m_time, t ≤ 86400000) (k client : Nat)
    (hk : st.m_threads[k]? = some client) (image : QImage) (now : Nat)
    (faces : List EyeCounterResult) (stamp : String) (g1 g2 : Int) :
    ∃ (st' : Muxer) (c d : Int) (t : Nat),
      st.newImage (some client) image now faces stamp g1 g2 = some st' ∧
      st.m_counts[k]? = some c ∧ st.m_durations[k]? = some d ∧ st.m_time[k]? = some t ∧
      st'.m_images[k]? = some image ∧ st'.m_wasChanged[k]? = some true ∧
      st'.m_counts[k]? = some (c + 1) ∧
      st'.m_durations[k]? = some (d + QTime.restart t now) ∧
      0 ≤ QTime.restart t now ∧ (t ≤ now → QTime.restart t now = (now : Int) - (t : Int)) ∧
      st'.m_time[k]? = some now ∧
      (∀ j : Nat, j ≠ k →
        st'.m_images[j]? = st.m_images[j]? ∧ st'.m_wasChanged[j]? = st.m_wasChanged[j]? ∧
        st'.m_counts[j]? = st.m_counts[j]? ∧ st'.m_durations[j]? = st.m_durations[j]?) ∧
      st'.m_muxedImage = st.m_muxedImage := by
  have heq := newImage_eq st hwf k client hk image now faces stamp g1 g2
  obtain ⟨hnd, hi, hw, hc, hd, ht⟩ := hwf
  have hlt : k < st.m_threads.length := by
    by_contra hge
    rw [List.getElem?_eq_none (by omega)] at hk
    cases hk
  have hki : k < st.m_images.length := by omega
  have hkw : k < st.m_wasChanged.length := by omega
  have hkc : k < st.m_counts.length := by omega
  have hkd : k < st.m_durations.length := by omega
  have hkt : k < st.m_time.length := by omega
  refine ⟨_, st.m_counts[k], st.m_durations[k], st.m_time[k], heq,
    List.getElem?_eq_getElem hkc, List.getElem?_eq_getElem hkd, List.getElem?_eq_getElem hkt,
    ?_, ?_, ?_, ?_, ?_, ?_, ?_, ?_, rfl⟩
  · simp [List.getElem?_set_self hki]
  · simp [List.getElem?_set_self hkw]
  · simp [List.getElem?_set_self hkc, List.getElem?_eq_getElem hkc]
  · simp [List.getElem?_set_self hkd, List.getElem?_eq_getElem hkd, List.getElem?_eq_getElem hkt]
  · exact QTime_restart_nonneg _ _ (hclock _ (List.getElem_mem hkt))
  · intro hle
    unfold QTime.restart
    simp only
    split <;> omega
  · simp [List.getElem?_set_self hkt]
  · intro j hj
    simp [List.getElem?_set_ne (Ne.symm hj)]

theorem newImage_updates_own_slot_witness :
    ∃ (st' : Muxer) (c d : Int) (t : Nat),
      grid3x3.newImage (some 7) (flatFrame 4 3 red) 1500 [] ("") 0 0 = some st' ∧
      grid3x3.m_counts[7]? = some c ∧ grid3x3.m_durations[7]? = some d ∧
      grid3x3.m_time[7]? = some t ∧
      st'.m_images[7]? = some (flatFrame 4 3 red) ∧ st'.m_wasChanged[7]? = some true ∧
      st'.m_counts[7]? = some (c + 1) ∧
      st'.m_durations[7]? = some (d + QTime.restart t 1500) ∧
      0 ≤ QTime.restart t 1500 ∧ (t ≤ 1500 → QTime.restart t 1500 = ((1500 : Nat) : Int) - (t : Int)) ∧
      st'.m_time[7]? = some 1500 ∧
      (∀ j : Nat, j ≠ 7 →
        st'.m_images[j]? = grid3x3.m_images[j]? ∧ st'.m_wasChanged[j]? = grid3x3.m_wasChanged[j]? ∧
        st'.m_counts[j]? = grid3x3.m_counts[j]? ∧ st'.m_durations[j]? = grid3x3.m_durations[j]?) ∧
      st'.m_muxedImage = grid3x3.m_muxedImage :=
  newImage_updates_own_slot grid3x3 (by unfold Muxer.WF; decide) (by decide) 7 7 (by decide)
    (flatFrame 4 3 red) 1500 [] ("") 0 0

/-! ## The cell computation of `updateFrames` (C2, C3, C9) -/

/-- C2 (code at the failing input): on a 3 × 3 grid with tiles of 4 × 3 pixels,
`updateFrames` computes cell `(1, 0)` for slot 4, where `4 / 3 = 1` and `4 % 3 = 1`; it
draws the slot at origin `(0, 3)` instead of `(4, 3)`: after the tick the pixel at `(0, 3)`
has the colour of slot 4 and the pixel at `(4, 3)` is still gray. -/
theorem updateFrames_misplaces_slot_four :
    Muxer.cellOf 4 3 = (1, 0) ∧
      grid3x3.drawOrigin 4 = (0, 3) ∧
      grid3x3.drawOrigin 4 ≠ ((4 % 3 : Int) * 4, (4 / 3 : Int) * 3) ∧
      grid3x3.updateFrames.1.m_muxedImage.pixel 0 3 = red ∧
      grid3x3.updateFrames.1.m_muxedImage.pixel 4 3 = QImage.gray := by
  refine ⟨by decide, by decide, by decide, by decide, by decide⟩

/-- C3 (code at the failing input): for five cameras the constructor applies the grid
`(3, 2)`, and `updateFrames` computes the same cell `(1, 0)` for slots 3 and 4. -/
theorem cells_of_slots_three_and_four_collide :
    Muxer.gridOf (Muxer.construct (640, 480) 5 (fun _ => 0) false false none) = some (3, 2) ∧
      Muxer.cellOf 3 3 = (1, 0) ∧ Muxer.cellOf 4 3 = (1, 0) := by
  refine ⟨by decide, by decide, by decide⟩

/-- C9 (code at the failing input): five cameras, tiles of 2 × 2 pixels; camera 3 never
delivers a frame, camera 4 delivers one red frame of the tile size, then one tick runs. The
grid is `(3, 2)`, the cell of camera 3 has its origin at `(0, 2)`, and the pixel there is red,
not gray. -/
theorem frame_of_camera_four_lands_in_cell_three :
    (fiveCameraRun.map fun st =>
        (st.m_cols, st.m_rows, st.m_counts[3]?, st.m_muxedImage.pixel 0 2, st.m_muxedImage.pixel 2 2))
      = some (3, 2, some 0, red, QImage.gray) ∧ red ≠ QImage.gray := by
  refine ⟨by decide, by decide⟩

/-! ## The log row (C10) -/

/-- C10 (code at the failing input): for one face with two eyes, the two counters starting
at zero, `newImage` appends the stamp, one comma and the three numbers run together, with no
further comma and no line end. -/
theorem log_row_has_one_comma :
    (loggingMuxer.newImage (some 0) (flatFrame 4 3 red) 1040 oneFaceTwoEyes
        ("2024-31-12 23:59:59") 0 0).map (fun st => st.m_logFilePtr)
      = some (some ("2024-31-12 23:59:59,112")) ∧
    ("2024-31-12 23:59:59,112" : String) ≠ "2024-31-12 23:59:59,1,1,2\n" ∧
    ("2024-31-12 23:59:59,112" : String) ≠ "2024-31-12 23:59:59,1,1,2" := by
  refine ⟨by decide, by decide, by decide⟩
